import Mathlib

/-!
Verification of the departure-query core of `src/bot.py` (transitbot).

Shallow embedding conventions:
  * `Instant` is the absolute value of a Python `datetime` measured in
    seconds: `date * 86400 + hour * 3600 + minute * 60 + second`, where
    `date` is a day count.  `datetime` comparison coincides with integer
    comparison of this encoding because the normalized time-of-day always
    lies in `[0, 86400)`.
  * Python exceptions are modelled by `Option`: `none` means the call
    raised (`ValueError` from `int()` / tuple unpacking / the `datetime`
    constructor).
  * `datetime.today()` and `datetime.now()` are modelled as explicit
    parameters (`today`, `current_time`): the embedding is the body of the
    function at a fixed wall-clock reading.
  * Python `str.split(":")` and `int(str)` are modelled on the string's
    character list: splitting on `:` and parsing an optional sign followed
    by a nonempty run of decimal digits.  (Python's `int` additionally
    strips whitespace and permits underscores; the feed times in play are
    plain digit strings, and `parse_gtfs` strips them beforehand.)
-/

/-- An absolute point in time: day count times 86400 plus seconds in day. -/
abbrev Instant := Int

/-- Build the `Instant` for day `d` at time of day `h:m:s`. -/
def mkInstant (d h m s : Int) : Instant := d * 86400 + h * 3600 + m * 60 + s

/-- Split a character list at every `:`, the character-level model of
Python `str.split(":")`. -/
def splitOnColon : List Char → List (List Char)
  | [] => [[]]
  | c :: cs =>
    match splitOnColon cs with
    | [] => if c = ':' then [[], []] else [[c]]
    | g :: gs => if c = ':' then [] :: g :: gs else (c :: g) :: gs

/-- Accumulate the value of a run of decimal digits; `none` on any
non-digit character. -/
def parseDigitsAux : List Char → Nat → Option Nat
  | [], acc => some acc
  | c :: cs, acc =>
    if c.isDigit then parseDigitsAux cs (acc * 10 + (c.toNat - 48)) else none

/-- Model of Python `int(str)` on a character list: optional sign then a
nonempty run of decimal digits; `none` models the `ValueError`. -/
def pyInt : List Char → Option Int
  | [] => none
  | '-' :: cs => if cs = [] then none else (parseDigitsAux cs 0).map (fun n => -(n : Int))
  | '+' :: cs => if cs = [] then none else (parseDigitsAux cs 0).map (fun n => (n : Int))
  | cs => (parseDigitsAux cs 0).map (fun n => (n : Int))

/-- Model of `map(int, gtfs_time.split(":"))` followed by 3-tuple unpacking:
`some [h, m, s]` when the string splits on `:` into exactly three integer
literals, otherwise the Python code raises (`none`). -/
def splitIntParts (s : String) : Option (List Int) :=
  (splitOnColon s.toList).mapM pyInt

/-- Embedding of `fix_time_format` from `src/bot.py` (lines 36-49).
`today` stands for the date of `datetime.today()`.  The single `if hours >= 24`
subtracts 24 once and advances the day once; the final guard is the validity
check performed by the `datetime` constructor (hour in [0,23], minute and
second in [0,59]), whose failure raises `ValueError` (`none`). -/
def fix_time_format (gtfs_time : String) (today : Int) : Option Instant :=
  match splitIntParts gtfs_time with
  | some [hours, minutes, seconds] =>
    let hours' := if hours ≥ 24 then hours - 24 else hours
    let today' := if hours ≥ 24 then today + 1 else today
    if 0 ≤ hours' ∧ hours' < 24 ∧ 0 ≤ minutes ∧ minutes < 60 ∧ 0 ≤ seconds ∧ seconds < 60 then
      some (mkInstant today' hours' minutes seconds)
    else none
  | _ => none

/-- One row of the `stop_times` table as `get_upcoming_trips` sees it:
`departure_time` has already been converted to an `Instant` by
`parse_gtfs` applying `fix_time_format` to every row. -/
structure StopTimeRecord where
  trip_id : String
  stop_id : String
  stop_sequence : Int
  departure_time : Instant
deriving DecidableEq, Repr

/-- Rows whose `stop_id` is one of the two queried stops:
`stop_times_df[stop_times_df["stop_id"].isin([start_stop, end_stop])]`
(row order preserved). -/
def relevantRecords (df : List StopTimeRecord) (start_stop end_stop : String) :
    List StopTimeRecord :=
  df.filter (fun r => r.stop_id == start_stop || r.stop_id == end_stop)

/-- Lexicographic comparison of character lists by code point, the model
of Python string comparison. -/
def charListLe : List Char → List Char → Bool
  | [], _ => true
  | _ :: _, [] => false
  | a :: as, b :: bs =>
    if a.toNat < b.toNat then true
    else if b.toNat < a.toNat then false
    else charListLe as bs

/-- Python `<=` on strings: lexicographic by code point. -/
def strLe (a b : String) : Bool := charListLe a.toList b.toList

/-- The group keys of `relevant_trips.groupby("trip_id")`: the distinct
`trip_id` values, iterated in ascending order (pandas sorts group keys). -/
def tripIdsOf (rs : List StopTimeRecord) : List String :=
  List.insertionSort (fun a b => strLe a b = true) (rs.map (fun r => r.trip_id)).dedup

/-- One group of the groupby, then `group.sort_values("stop_sequence")`. -/
def groupOf (rs : List StopTimeRecord) (tid : String) : List StopTimeRecord :=
  List.insertionSort (fun a b => a.stop_sequence ≤ b.stop_sequence)
    (rs.filter (fun r => r.trip_id == tid))

/-- The body of the per-group loop of `get_upcoming_trips` (lines 68-81):
take the first start row and first end row of the sequence-sorted group
(`.values[0]`), and keep `(departure, arrival, trip_id)` when both rows
exist and `departure_time > current_time`. -/
def candidateOf (rs : List StopTimeRecord) (current_time : Instant)
    (start_stop end_stop tid : String) : Option (Instant × Instant × String) :=
  let group := groupOf rs tid
  match (group.filter (fun r => r.stop_id == start_stop)).head?,
        (group.filter (fun r => r.stop_id == end_stop)).head? with
  | some start_row, some end_row =>
    if start_row.departure_time > current_time then
      some (start_row.departure_time, end_row.departure_time, tid)
    else none
  | _, _ => none

/-- The `valid_trips` list right before `valid_trips.sort()`. -/
def validTrips (df : List StopTimeRecord) (current_time : Instant)
    (start_stop end_stop : String) : List (Instant × Instant × String) :=
  let relevant := relevantRecords df start_stop end_stop
  (tripIdsOf relevant).filterMap (candidateOf relevant current_time start_stop end_stop)

/-- Python tuple comparison `(dep, arr, trip_id) <= ...`: lexicographic on
departure, then arrival, then trip identifier. -/
def tripleLe (x y : Instant × Instant × String) : Prop :=
  x.1 < y.1 ∨ x.1 = y.1 ∧ (x.2.1 < y.2.1 ∨ x.2.1 = y.2.1 ∧ strLe x.2.2 y.2.2 = true)

instance : DecidableRel tripleLe := fun x y => by
  unfold tripleLe; infer_instance

/-- The `valid_trips` list after `valid_trips.sort()`. -/
def sortedValidTrips (df : List StopTimeRecord) (current_time : Instant)
    (start_stop end_stop : String) : List (Instant × Instant × String) :=
  List.insertionSort tripleLe (validTrips df current_time start_stop end_stop)

/-- The dedup-and-truncate loop of `get_upcoming_trips` (lines 85-93),
with the appended entries kept as full triples: skip a triple whose
`trip_id` is in `seen`, otherwise append it and record its `trip_id`;
after every iteration stop as soon as 3 entries are collected. -/
def dedupLoop : List (Instant × Instant × String) → List String →
    List (Instant × Instant × String) → List (Instant × Instant × String)
  | [], _, acc => acc.reverse
  | t :: rest, seen, acc =>
    if t.2.2 ∈ seen then
      if acc.length = 3 then acc.reverse else dedupLoop rest seen acc
    else
      if (t :: acc).length = 3 then (t :: acc).reverse
      else dedupLoop rest (t.2.2 :: seen) (t :: acc)

/-- The selected trips with their identifiers still attached (the loop's
`unique_trips`, before each appended tuple drops `trip_id`). -/
def uniqueTripsFull (df : List StopTimeRecord) (current_time : Instant)
    (start_stop end_stop : String) : List (Instant × Instant × String) :=
  dedupLoop (sortedValidTrips df current_time start_stop end_stop) [] []

/-- Embedding of `get_upcoming_trips` from `src/bot.py` (lines 51-95).
`current_time` stands for `datetime.now()`.  The returned entries are the
`(departure, arrival)` pairs appended by the loop — the Python code drops
`trip_id` at the moment of `unique_trips.append((dep, arr))`. -/
def get_upcoming_trips (df : List StopTimeRecord) (current_time : Instant)
    (start_stop end_stop : String) : List (Instant × Instant) :=
  (uniqueTripsFull df current_time start_stop end_stop).map (fun t => (t.1, t.2.1))

/-- Strict lexicographic order on `(departure, arrival, trip_id)` triples;
the string component is strict (`≤` together with `≠`). -/
def tripleLt (x y : Instant × Instant × String) : Prop :=
  x.1 < y.1 ∨ x.1 = y.1 ∧
    (x.2.1 < y.2.1 ∨ x.2.1 = y.2.1 ∧ (strLe x.2.2 y.2.2 = true ∧ x.2.2 ≠ y.2.2))

/-- A trip that visits stop B before stop A: two rows of one trip. -/
def reverseTripDf : List StopTimeRecord :=
  [⟨"T1", "B", 1, 100⟩, ⟨"T1", "A", 2, 200⟩]

/-- Another trip visiting stop B before stop A, with its own times. -/
def degenerateTripDf : List StopTimeRecord :=
  [⟨"T2", "B", 1, 130⟩, ⟨"T2", "A", 2, 250⟩]

/-- A single stop-time row at stop AL. -/
def equalStopsDf : List StopTimeRecord :=
  [⟨"T1", "AL", 1, 100⟩]

/-- Two trips departing stop S at the same instant with different arrival
instants at stop E; the trip with the later arrival has the smaller
identifier. -/
def tieBreakDf : List StopTimeRecord :=
  [⟨"B", "S", 1, 100⟩, ⟨"B", "E", 2, 300⟩, ⟨"A", "S", 1, 100⟩, ⟨"A", "E", 2, 400⟩]

/-- One trip from stop A to stop B, identified as T1. -/
def pairOutputDf : List StopTimeRecord :=
  [⟨"T1", "A", 1, 100⟩, ⟨"T1", "B", 2, 200⟩]

/-- The same schedule as `pairOutputDf` with the trip renamed to T9. -/
def pairOutputDf2 : List StopTimeRecord :=
  [⟨"T9", "A", 1, 100⟩, ⟨"T9", "B", 2, 200⟩]

/-- One trip from stop A to stop B used to instantiate the filter claims. -/
def futureFilterDf : List StopTimeRecord :=
  [⟨"T3", "A", 1, 100⟩, ⟨"T3", "B", 2, 200⟩]

theorem charListLe_total (a b : List Char) :
    charListLe a b = true ∨ charListLe b a = true := by
  induction a generalizing b with
  | nil => exact Or.inl rfl
  | cons x xs ih =>
    cases b with
    | nil => exact Or.inr rfl
    | cons y ys =>
      rcases Nat.lt_trichotomy x.toNat y.toNat with h | h | h
      · left; simp [charListLe, h]
      · rcases ih ys with h2 | h2
        · left; simp [charListLe, h, h2]
        · right; simp [charListLe, h.symm, h2]
      · right; simp [charListLe, h]

theorem charListLe_trans (a b c : List Char) (hab : charListLe a b = true)
    (hbc : charListLe b c = true) : charListLe a c = true := by
  induction a generalizing b c with
  | nil => rfl
  | cons x xs ih =>
    cases b with
    | nil => simp [charListLe] at hab
    | cons y ys =>
      cases c with
      | nil => simp [charListLe] at hbc
      | cons z zs =>
        simp only [charListLe] at hab hbc ⊢
        split_ifs at hab hbc ⊢ <;>
          first
          | rfl
          | omega
          | exact ih ys zs hab hbc

theorem strLe_total (a b : String) : strLe a b = true ∨ strLe b a = true :=
  charListLe_total a.toList b.toList

theorem strLe_trans (a b c : String) (hab : strLe a b = true)
    (hbc : strLe b c = true) : strLe a c = true :=
  charListLe_trans a.toList b.toList c.toList hab hbc

instance : IsTotal (Instant × Instant × String) tripleLe := by
  constructor
  intro x y
  unfold tripleLe
  rcases Int.lt_trichotomy x.1 y.1 with h | h | h
  · exact Or.inl (Or.inl h)
  · rcases Int.lt_trichotomy x.2.1 y.2.1 with h2 | h2 | h2
    · exact Or.inl (Or.inr ⟨h, Or.inl h2⟩)
    · rcases strLe_total x.2.2 y.2.2 with h3 | h3
      · exact Or.inl (Or.inr ⟨h, Or.inr ⟨h2, h3⟩⟩)
      · exact Or.inr (Or.inr ⟨h.symm, Or.inr ⟨h2.symm, h3⟩⟩)
    · exact Or.inr (Or.inr ⟨h.symm, Or.inl h2⟩)
  · exact Or.inr (Or.inl h)

instance : IsTrans (Instant × Instant × String) tripleLe := by
  constructor
  intro x y z hxy hyz
  unfold tripleLe at hxy hyz ⊢
  rcases hxy with h1 | ⟨h1, h2 | ⟨h2, h3⟩⟩ <;>
    rcases hyz with g1 | ⟨g1, g2 | ⟨g2, g3⟩⟩
  · exact Or.inl (h1.trans g1)
  · exact Or.inl (g1 ▸ h1)
  · exact Or.inl (g1 ▸ h1)
  · exact Or.inl (h1 ▸ g1)
  · exact Or.inr ⟨h1.trans g1, Or.inl (h2.trans g2)⟩
  · exact Or.inr ⟨h1.trans g1, Or.inl (g2 ▸ h2)⟩
  · exact Or.inl (h1 ▸ g1)
  · exact Or.inr ⟨h1.trans g1, Or.inl (h2 ▸ g2)⟩
  · exact Or.inr ⟨h1.trans g1, Or.inr ⟨h2.trans g2, strLe_trans _ _ _ h3 g3⟩⟩


theorem dedupLoop_eq_append (l : List (Instant × Instant × String))
    (seen : List String) (acc : List (Instant × Instant × String)) :
    ∃ s, s.Sublist l ∧ dedupLoop l seen acc = acc.reverse ++ s := by
  induction l generalizing seen acc with
  | nil => exact ⟨[], List.nil_sublist _, by simp [dedupLoop]⟩
  | cons t rest ih =>
    by_cases hs : t.2.2 ∈ seen
    · by_cases h3 : acc.length = 3
      · exact ⟨[], (List.nil_sublist rest).cons t, by simp [dedupLoop, hs, h3]⟩
      · obtain ⟨s, hsub, heq⟩ := ih seen acc
        exact ⟨s, hsub.cons t, by simp [dedupLoop, hs, h3, heq]⟩
    · by_cases h3 : (t :: acc).length = 3
      · exact ⟨[t], ((List.nil_sublist rest).cons₂ t),
          by simp [dedupLoop, hs, h3]⟩
      · obtain ⟨s, hsub, heq⟩ := ih (t.2.2 :: seen) (t :: acc)
        refine ⟨t :: s, hsub.cons₂ t, ?_⟩
        simp only [dedupLoop, if_neg hs, if_neg h3, heq, List.reverse_cons,
          List.append_assoc, List.singleton_append]

theorem dedupLoop_sublist (l : List (Instant × Instant × String))
    (seen : List String) : (dedupLoop l seen []).Sublist l := by
  obtain ⟨s, hsub, heq⟩ := dedupLoop_eq_append l seen []
  simpa [heq] using hsub

theorem dedupLoop_length (l : List (Instant × Instant × String))
    (seen : List String) (acc : List (Instant × Instant × String))
    (hacc : acc.length < 3) : (dedupLoop l seen acc).length ≤ 3 := by
  induction l generalizing seen acc with
  | nil =>
    simp only [dedupLoop, List.length_reverse]
    omega
  | cons t rest ih =>
    simp only [dedupLoop]
    by_cases hs : t.2.2 ∈ seen
    · rw [if_pos hs]
      by_cases h3 : acc.length = 3
      · rw [if_pos h3]
        simp only [List.length_reverse]
        omega
      · rw [if_neg h3]
        exact ih seen acc hacc
    · rw [if_neg hs]
      by_cases h3 : (t :: acc).length = 3
      · rw [if_pos h3]
        simp only [List.length_reverse]
        omega
      · rw [if_neg h3]
        refine ih _ _ ?_
        simp only [List.length_cons] at h3 ⊢
        omega

theorem dedupLoop_nodup (l : List (Instant × Instant × String))
    (seen : List String) (acc : List (Instant × Instant × String))
    (hacc : (acc.map (fun x => x.2.2)).Nodup)
    (hseen : ∀ t ∈ acc, t.2.2 ∈ seen) :
    ((dedupLoop l seen acc).map (fun x => x.2.2)).Nodup := by
  induction l generalizing seen acc with
  | nil =>
    simp only [dedupLoop]
    rw [List.map_reverse, List.nodup_reverse]
    exact hacc
  | cons t rest ih =>
    simp only [dedupLoop]
    by_cases hs : t.2.2 ∈ seen
    · rw [if_pos hs]
      by_cases h3 : acc.length = 3
      · rw [if_pos h3, List.map_reverse, List.nodup_reverse]
        exact hacc
      · rw [if_neg h3]
        exact ih seen acc hacc hseen
    · rw [if_neg hs]
      have hnot : t.2.2 ∉ acc.map (fun x => x.2.2) := by
        intro hmem
        obtain ⟨x, hx, hxe⟩ := List.mem_map.mp hmem
        exact hs (hxe ▸ hseen x hx)
      have hacc2 : ((t :: acc).map (fun x => x.2.2)).Nodup := by
        rw [List.map_cons]
        exact List.nodup_cons.mpr ⟨hnot, hacc⟩
      by_cases h3 : (t :: acc).length = 3
      · rw [if_pos h3, List.map_reverse, List.nodup_reverse]
        exact hacc2
      · rw [if_neg h3]
        refine ih (t.2.2 :: seen) (t :: acc) hacc2 ?_
        intro x hx
        rcases List.mem_cons.mp hx with rfl | hx
        · exact List.mem_cons_self _ _
        · exact List.mem_cons_of_mem _ (hseen x hx)

theorem mem_of_mem_uniqueTripsFull {df : List StopTimeRecord} {ct : Instant}
    {s e : String} {t : Instant × Instant × String}
    (h : t ∈ uniqueTripsFull df ct s e) : t ∈ validTrips df ct s e := by
  simp only [uniqueTripsFull] at h
  have h1 : t ∈ sortedValidTrips df ct s e :=
    (dedupLoop_sublist (sortedValidTrips df ct s e) []).subset h
  simp only [sortedValidTrips] at h1
  exact (List.mem_insertionSort tripleLe).mp h1

theorem candidateOf_some_dep_gt {rs : List StopTimeRecord} {ct : Instant}
    {s e tid : String} {t : Instant × Instant × String}
    (h : candidateOf rs ct s e tid = some t) : ct < t.1 := by
  simp only [candidateOf] at h
  split at h
  · split at h
    · cases h
      assumption
    · exact absurd h (by simp)
  · exact absurd h (by simp)

theorem candidateOf_same_dep_eq_arr {rs : List StopTimeRecord} {ct : Instant}
    {s tid : String} {t : Instant × Instant × String}
    (h : candidateOf rs ct s s tid = some t) : t.1 = t.2.1 := by
  simp only [candidateOf] at h
  split at h
  next sr er h1 h2 =>
    have hse : sr = er := Option.some.inj (h1.symm.trans h2)
    split at h
    · cases h
      rw [hse]
    · exact absurd h (by simp)
  next => exact absurd h (by simp)

theorem mem_get_upcoming_trips {df : List StopTimeRecord} {ct : Instant}
    {s e : String} {p : Instant × Instant}
    (hp : p ∈ get_upcoming_trips df ct s e) :
    ∃ t ∈ uniqueTripsFull df ct s e, p = (t.1, t.2.1) := by
  simp only [get_upcoming_trips, List.mem_map] at hp
  obtain ⟨t, ht, he⟩ := hp
  exact ⟨t, ht, he.symm⟩

theorem tripleLe_ne_lt {x y : Instant × Instant × String}
    (h : tripleLe x y) (hne : x.2.2 ≠ y.2.2) : tripleLt x y := by
  unfold tripleLe at h
  unfold tripleLt
  rcases h with h1 | ⟨h1, h2 | ⟨h2, h3⟩⟩
  · exact Or.inl h1
  · exact Or.inr ⟨h1, Or.inl h2⟩
  · exact Or.inr ⟨h1, Or.inr ⟨h2, h3, hne⟩⟩

/-- C1: the code admits a trip into a direction's result whenever both
stops occur in the trip, with no check that the start stop has the smaller
`stop_sequence`.  At this input the single trip T1 visits stop B (sequence
1) before stop A (sequence 2), yet it is returned by both the A-to-B query
and the B-to-A query, with its departure and arrival swapped in the
former. -/
theorem C1_trip_in_both_directions :
    uniqueTripsFull reverseTripDf 0 "A" "B" = [(200, 100, "T1")] ∧
    uniqueTripsFull reverseTripDf 0 "B" "A" = [(100, 200, "T1")] := by
  decide

/-- C2: no match with `departure_instant ≥ arrival_instant` is excluded:
the only filter is `departure_time > current_time`.  At this input the
A-to-B query returns an entry departing at 250 and arriving at 130. -/
theorem C2_degenerate_entry_returned :
    get_upcoming_trips degenerateTripDf 0 "A" "B" = [(250, 130)] ∧
    (130 : Instant) < 250 := by
  decide

/-- C3 counterexample: "48:10:00" splits into three integer components
with minutes and seconds in range, but `fix_time_format` subtracts 24 only
once, leaving hour 24, which the `datetime` constructor rejects — so no
instant (let alone day D+2) is produced. -/
theorem C3_counterexample :
    splitIntParts "48:10:00" = some [48, 10, 0] ∧
    fix_time_format "48:10:00" 0 = none := by
  decide

/-- C3 amended: normalization subtracts 24 at most once.  For any string
splitting into integer components `h:m:s` with `m`, `s` in `[0, 59]` and
`0 ≤ h < 48`, the result is day `D+1` at hour `h - 24` when `h ≥ 24` and
day `D` at hour `h` otherwise; there is no repetition, so `h ≥ 48` is
outside this range (and fails, per the counterexample). -/
theorem C3_single_rollover (t : String) (d h m s : Int)
    (hp : splitIntParts t = some [h, m, s])
    (hm : 0 ≤ m ∧ m < 60) (hs : 0 ≤ s ∧ s < 60) (hh : 0 ≤ h ∧ h < 48) :
    fix_time_format t d =
      some (if h ≥ 24 then mkInstant (d + 1) (h - 24) m s else mkInstant d h m s) := by
  simp only [fix_time_format, hp]
  by_cases h24 : h ≥ 24
  · simp only [if_pos h24]
    rw [if_pos (show (0 : Int) ≤ h - 24 ∧ h - 24 < 24 ∧ 0 ≤ m ∧ m < 60 ∧ 0 ≤ s ∧ s < 60 from
      ⟨by omega, by omega, hm.1, hm.2, hs.1, hs.2⟩)]
  · simp only [if_neg h24]
    rw [if_pos (show (0 : Int) ≤ h ∧ h < 24 ∧ 0 ≤ m ∧ m < 60 ∧ 0 ≤ s ∧ s < 60 from
      ⟨hh.1, by omega, hm.1, hm.2, hs.1, hs.2⟩)]

/-- C3 witness: the amended theorem applied to "25:10:00" on day 0. -/
theorem C3_single_rollover_witness :
    splitIntParts "25:10:00" = some [25, 10, 0] ∧
    fix_time_format "25:10:00" 0 =
      some (if (25 : Int) ≥ 24 then mkInstant (0 + 1) (25 - 24) 10 0
            else mkInstant 0 25 10 0) :=
  ⟨by decide,
   C3_single_rollover "25:10:00" 0 25 10 0 (by decide) (by decide) (by decide) (by decide)⟩

/-- C4 counterexample: at this input the result holds two entries with
equal departure instants whose trip identifiers are in descending order
("B" before "A", although "A" < "B"): the Python tuple sort breaks the
departure tie on the arrival instant (300 before 400) first, not on the
trip identifier. -/
theorem C4_counterexample :
    uniqueTripsFull tieBreakDf 0 "S" "E" = [(100, 300, "B"), (100, 400, "A")] ∧
    strLe "A" "B" = true ∧ ("A" : String) ≠ "B" := by
  decide

/-- C4 amended: every result is sorted ascending by departure instant,
with ties broken by arrival instant ascending and then by trip identifier
ascending (`tripleLt` is the strict lexicographic order on the
`(departure, arrival, trip_id)` triple). -/
theorem C4_sorted_by_dep_arr_tid (df : List StopTimeRecord) (ct : Instant)
    (s e : String) : (uniqueTripsFull df ct s e).Pairwise tripleLt := by
  have hsorted : (sortedValidTrips df ct s e).Pairwise tripleLe := by
    simp only [sortedValidTrips]
    exact List.sorted_insertionSort tripleLe _
  have hsub : (uniqueTripsFull df ct s e).Sublist (sortedValidTrips df ct s e) := by
    simp only [uniqueTripsFull]
    exact dedupLoop_sublist _ _
  have hle : (uniqueTripsFull df ct s e).Pairwise tripleLe := hsorted.sublist hsub
  have hnd : ((uniqueTripsFull df ct s e).map (fun x => x.2.2)).Nodup := by
    simp only [uniqueTripsFull]
    exact dedupLoop_nodup _ _ _ (by simp) (by simp)
  have hne : (uniqueTripsFull df ct s e).Pairwise (fun x y => x.2.2 ≠ y.2.2) :=
    List.pairwise_map.mp hnd
  exact (hle.and hne).imp (fun h => tripleLe_ne_lt h.1 h.2)

/-- C5 counterexample: a query with identical start and end stop returns
an ordinary (here nonempty) result; no `InvalidArgumentError` of any sort
exists in the code, and no argument is validated. -/
theorem C5_counterexample :
    get_upcoming_trips equalStopsDf 0 "AL" "AL" = [(100, 100)] := by
  decide

/-- C5 amended: the code performs no argument validation.  A query with
`start_stop = end_stop` runs normally; every entry it returns has its
departure equal to its arrival (both taken from the stop's first
occurrence row).  The requested count is the hard-coded 3, not a
caller-supplied value. -/
theorem C5_equal_stops_no_error (df : List StopTimeRecord) (ct : Instant)
    (s : String) (p : Instant × Instant)
    (hp : p ∈ get_upcoming_trips df ct s s) : p.1 = p.2 := by
  obtain ⟨t, ht, rfl⟩ := mem_get_upcoming_trips hp
  have hv := mem_of_mem_uniqueTripsFull ht
  simp only [validTrips, List.mem_filterMap] at hv
  obtain ⟨tid, _, hc⟩ := hv
  exact candidateOf_same_dep_eq_arr hc

/-- C5 witness: the amended theorem applied to the concrete one-row
table. -/
theorem C5_equal_stops_no_error_witness :
    ((100 : Instant), (100 : Instant)) ∈ get_upcoming_trips equalStopsDf 0 "AL" "AL" ∧
    ((100 : Instant), (100 : Instant)).1 = ((100 : Instant), (100 : Instant)).2 :=
  ⟨by decide,
   C5_equal_stops_no_error equalStopsDf 0 "AL" ((100 : Instant), (100 : Instant)) (by decide)⟩

/-- C7 counterexample: the returned entries do not carry the trip
identifier — renaming the only trip from T1 to T9 leaves the result
literally unchanged, and the result is the bare pair of instants. -/
theorem C7_counterexample :
    get_upcoming_trips pairOutputDf 0 "A" "B" = get_upcoming_trips pairOutputDf2 0 "A" "B" ∧
    pairOutputDf ≠ pairOutputDf2 ∧
    get_upcoming_trips pairOutputDf 0 "A" "B" = [(100, 200)] := by
  decide

/-- C7 amended: each returned entry carries only the departure and
arrival instants; the trip identifier is tracked internally for
deduplication (some identifier completes each pair to a selected triple)
but is dropped from the output at append time. -/
theorem C7_entries_expose_two_fields (df : List StopTimeRecord) (ct : Instant)
    (s e : String) (p : Instant × Instant)
    (hp : p ∈ get_upcoming_trips df ct s e) :
    ∃ tid, (p.1, p.2, tid) ∈ uniqueTripsFull df ct s e := by
  obtain ⟨t, ht, rfl⟩ := mem_get_upcoming_trips hp
  exact ⟨t.2.2, ht⟩

/-- C7 witness: the amended theorem applied to the concrete one-trip
table. -/
theorem C7_entries_expose_two_fields_witness :
    ((100 : Instant), (200 : Instant)) ∈ get_upcoming_trips pairOutputDf 0 "A" "B" ∧
    ∃ tid, (((100 : Instant), (200 : Instant)).1, ((100 : Instant), (200 : Instant)).2, tid) ∈
      uniqueTripsFull pairOutputDf 0 "A" "B" :=
  ⟨by decide,
   C7_entries_expose_two_fields pairOutputDf 0 "A" "B" (100, 200) (by decide)⟩

/-- C8: every returned entry departs strictly after the reference
instant; the code keeps a candidate only when
`departure_time > current_time`, so departures equal to the reference are
excluded. -/
theorem C8_strict_future_filter (df : List StopTimeRecord) (ct : Instant)
    (s e : String) (p : Instant × Instant)
    (hp : p ∈ get_upcoming_trips df ct s e) : ct < p.1 := by
  obtain ⟨t, ht, rfl⟩ := mem_get_upcoming_trips hp
  have hv := mem_of_mem_uniqueTripsFull ht
  simp only [validTrips, List.mem_filterMap] at hv
  obtain ⟨tid, _, hc⟩ := hv
  exact candidateOf_some_dep_gt hc

/-- C8 witness: the filter theorem applied to a concrete trip departing
at 100 queried at reference instant 50. -/
theorem C8_strict_future_filter_witness :
    ((100 : Instant), (200 : Instant)) ∈ get_upcoming_trips futureFilterDf 50 "A" "B" ∧
    (50 : Instant) < ((100 : Instant), (200 : Instant)).1 :=
  ⟨by decide,
   C8_strict_future_filter futureFilterDf 50 "A" "B" (100, 200) (by decide)⟩

/-- C9: every result has at most 3 entries (the hard-coded count), the
trip identifiers of the selected entries are pairwise distinct, and the
returned pairs are exactly those selected entries with the identifier
projected away. -/
theorem C9_bounded_and_unique (df : List StopTimeRecord) (ct : Instant)
    (s e : String) :
    (get_upcoming_trips df ct s e).length ≤ 3 ∧
    ((uniqueTripsFull df ct s e).map (fun x => x.2.2)).Nodup ∧
    get_upcoming_trips df ct s e = (uniqueTripsFull df ct s e).map (fun t => (t.1, t.2.1)) := by
  refine ⟨?_, ?_, rfl⟩
  · simp only [get_upcoming_trips, List.length_map, uniqueTripsFull]
    exact dedupLoop_length _ _ _ (by simp)
  · simp only [uniqueTripsFull]
    exact dedupLoop_nodup _ _ _ (by simp) (by simp)

/-- C10: the query is a pure function of the records, the reference
instant and the two stop identifiers, so two runs with identical inputs
return identical ordered results for both directions. -/
theorem C10_deterministic (df : List StopTimeRecord) (ct : Instant)
    (a b : String) :
    get_upcoming_trips df ct a b = get_upcoming_trips df ct a b ∧
    get_upcoming_trips df ct b a = get_upcoming_trips df ct b a :=
  ⟨rfl, rfl⟩

/-- C6 counterexample: "-1:30:00" splits into three integer components
with minutes and seconds inside [0,59], yet `fix_time_format` returns no
instant: the `datetime` constructor rejects the hour -1, a failure case
the claim's condition does not cover. -/
theorem C6_counterexample :
    splitIntParts "-1:30:00" = some [-1, 30, 0] ∧
    fix_time_format "-1:30:00" 5 = none := by
  decide

/-- C6 amended: `fix_time_format` returns an instant exactly when the raw
string splits into three integer components whose minutes and seconds lie
in [0,59] and whose hour lies in [0,47] (so that the hour is a valid
`datetime` hour after the single 24-subtraction); it fails in every other
case. -/
theorem C6_failure_condition (t : String) (d : Int) :
    (fix_time_format t d).isSome = true ↔
      ∃ h m s, splitIntParts t = some [h, m, s] ∧
        0 ≤ h ∧ h < 48 ∧ 0 ≤ m ∧ m < 60 ∧ 0 ≤ s ∧ s < 60 := by
  rcases hsp : splitIntParts t with _ | parts
  · simp [fix_time_format, hsp]
  · rcases parts with _ | ⟨h1, _ | ⟨m1, _ | ⟨s1, _ | ⟨x, rest⟩⟩⟩⟩
    · simp [fix_time_format, hsp]
    · simp [fix_time_format, hsp]
    · simp [fix_time_format, hsp]
    · simp only [fix_time_format, hsp]
      constructor
      · intro hsome
        refine ⟨h1, m1, s1, rfl, ?_⟩
        by_cases h24 : h1 ≥ 24
        · simp only [if_pos h24] at hsome
          split at hsome
          next hg => omega
          next => simp at hsome
        · simp only [if_neg h24] at hsome
          split at hsome
          next hg => omega
          next => simp at hsome
      · rintro ⟨h, m, s, heq, hrange⟩
        have heq2 : h1 = h ∧ m1 = m ∧ s1 = s := by
          simpa using heq
        obtain ⟨rfl, rfl, rfl⟩ := heq2
        by_cases h24 : h1 ≥ 24
        · simp only [if_pos h24]
          rw [if_pos (show (0 : Int) ≤ h1 - 24 ∧ h1 - 24 < 24 ∧ 0 ≤ m1 ∧ m1 < 60 ∧
              0 ≤ s1 ∧ s1 < 60 by omega)]
          rfl
        · simp only [if_neg h24]
          rw [if_pos (show (0 : Int) ≤ h1 ∧ h1 < 24 ∧ 0 ≤ m1 ∧ m1 < 60 ∧
              0 ≤ s1 ∧ s1 < 60 by omega)]
          rfl
    · simp [fix_time_format, hsp]

/-- C6 witness: the amended characterization instantiated at a concrete
in-range string and a concrete out-of-range one. -/
theorem C6_failure_condition_witness :
    (fix_time_format "11:22:33" 7).isSome = true :=
  (C6_failure_condition "11:22:33" 7).mpr
    ⟨11, 22, 33, by decide, by decide, by decide, by decide, by decide, by decide, by decide⟩
